import Mathlib

/-!
Verification of the evaluator's validation and export layer of the `esc`
repository against its natural-language specification.

The development shallowly embeds the Go source:

* `eval/validator.go` (the unnamed source part): blame locations
  (`validationLoc`), deep constant equality (`equalsConst`), value-versus-
  schema validation (`validateValue` and friends) and schema-versus-schema
  validation (`validateSchemaType` and friends);
* `eval/expr.go`: the flattening of chained access expressions performed by
  `expr.export`.

Numbers follow the Go code exactly: `validateNumber` parses `json.Number`
strings with `big.ParseFloat(s, 10, 0, big.ToNearestEven)`, which rounds the
decimal to a binary floating-point number with a 64-bit mantissa, and
`big.Float.Quo` on such operands rounds the quotient back to 64 mantissa
bits.  The embedding represents every `big.Float` by an exact (unnormalised)
rational `Q` together with an explicit round-to-64-bits operation, so all
comparisons and the `IsInt` test of the source are reproduced bit-for-bit.
-/

namespace Esc

set_option maxRecDepth 2000

/-! ## Exact rationals used to model `big.Float` values

`Q` is an unnormalised rational: an integer numerator and a positive natural
denominator.  Keeping it unnormalised avoids `Nat.gcd` in positions the
kernel must evaluate; all predicates cross-multiply.  -/

structure Q where
  n : Int
  d : Nat
  deriving Repr, DecidableEq

/-- Numeric equality of two (unnormalised) rationals. -/
def Q.eqv (a b : Q) : Bool := a.n * (b.d : Int) == b.n * (a.d : Int)

/-- Numeric strict order: `a < b`. -/
def Q.ltv (a b : Q) : Bool := a.n * (b.d : Int) < b.n * (a.d : Int)

/-- Numeric order: `a ≤ b`. -/
def Q.lev (a b : Q) : Bool := a.n * (b.d : Int) ≤ b.n * (a.d : Int)

/-- `a * b` on unnormalised rationals. -/
def Q.mul (a b : Q) : Q := ⟨a.n * b.n, a.d * b.d⟩

/-- `a / b` on unnormalised rationals (for `b` with nonzero numerator; the
sign moves to the numerator so the denominator stays a natural). -/
def Q.div (a b : Q) : Q :=
  if b.n < 0 then ⟨-(a.n * (b.d : Int)), a.d * b.n.natAbs⟩
  else ⟨a.n * (b.d : Int), a.d * b.n.natAbs⟩

/-- Subtract an integer from a rational. -/
def Q.subInt (a : Q) (k : Int) : Q := ⟨a.n - k * (a.d : Int), a.d⟩

/-- Negation. -/
def Q.neg (a : Q) : Q := ⟨-a.n, a.d⟩

/-- Absolute value. -/
def Q.abs (a : Q) : Q := ⟨(a.n.natAbs : Int), a.d⟩

/-- Whether the rational is an exact integer (models `big.Float.IsInt` on an
exactly represented value). -/
def Q.isInt (a : Q) : Bool := a.n % (a.d : Int) == 0

/-- Whether the value is zero. -/
def Q.isZero (a : Q) : Bool := a.n == 0

/-- Floor of a rational, as an integer (`Int.fdiv` rounds toward `-∞`). -/
def Q.floor (a : Q) : Int := Int.fdiv a.n (a.d : Int)

/-- Fuel-driven binary logarithm on naturals (`natLog2 n = ⌊log₂ n⌋` for
`n ≥ 1`); written with explicit fuel so that the kernel can evaluate it. -/
def natLog2F : Nat → Nat → Nat
  | 0, _ => 0
  | f+1, n => if n ≤ 1 then 0 else natLog2F f (n / 2) + 1

/-- Binary logarithm on naturals. -/
def natLog2 (n : Nat) : Nat := natLog2F n n

/-- `2 ^ e` as a rational, for an integer exponent. -/
def pow2 : Int → Q
  | .ofNat k => ⟨((2 ^ k : Nat) : Int), 1⟩
  | .negSucc k => ⟨1, 2 ^ (k + 1)⟩

/-- `10 ^ e` as a rational, for an integer exponent. -/
def pow10 : Int → Q
  | .ofNat k => ⟨((10 ^ k : Nat) : Int), 1⟩
  | .negSucc k => ⟨1, 10 ^ (k + 1)⟩

/-- `⌊log₂ |a|⌋` for a rational with nonzero numerator. -/
def Q.ilog2 (a : Q) : Int :=
  let la : Int := (natLog2 a.n.natAbs : Int)
  let lb : Int := (natLog2 a.d : Int)
  let k := la - lb
  if (Q.abs a).ltv (pow2 k) then k - 1 else k

/-- Round a rational to a binary floating-point value with `prec` mantissa
bits using round-to-nearest, ties-to-even.  This is exactly the rounding
`math/big` applies to a `big.Float` of precision `prec`. -/
def roundPrec (prec : Nat) (a : Q) : Q :=
  if a.isZero then ⟨0, 1⟩
  else
    let m := a.abs
    let e := m.ilog2
    let ulp := pow2 (e - ((prec : Int) - 1))
    let q := m.div ulp
    let fl := q.floor
    let r := q.subInt fl
    let half : Q := ⟨1, 2⟩
    let qi :=
      if r.ltv half then fl
      else if half.ltv r then fl + 1
      else if fl % 2 == 0 then fl else fl + 1
    let mag := (Q.mk qi 1).mul ulp
    if a.n < 0 then mag.neg else mag

/-- Round to the 64 mantissa bits that `big.ParseFloat(s, 10, 0, ToNearestEven)`
and `big.Float.Quo` use when the receiver's precision is `0` (the `math/big`
documentation: a precision of `0` is changed to `64`, respectively to the
larger of the operands' precisions, before rounding takes effect). -/
def round64 (a : Q) : Q := roundPrec 64 a

/-- Decimal digit test (models the lexer's digit class). -/
def isDigitC (c : Char) : Bool := 48 ≤ c.toNat && c.toNat ≤ 57

/-- Numeric value of a list of decimal digit characters. -/
def digitsToNat (cs : List Char) : Nat :=
  cs.foldl (fun a c => 10 * a + (c.toNat - 48)) 0

/-- Exact decimal parsing: the rational value denoted by a decimal string of
the form `[+-]digits[.digits][(e|E)[+-]digits]`, before any rounding.  This
is the mathematical value `big.ParseFloat` rounds. -/
def parseDecExact (s : String) : Option Q :=
  let cs := s.data
  let sgnNeg : Bool := match cs with
    | '-' :: _ => true
    | _ => false
  let cs := match cs with
    | '+' :: t => t
    | '-' :: t => t
    | t => t
  let (ip, cs) := cs.span isDigitC
  let (fp, cs) := match cs with
    | '.' :: t => t.span isDigitC
    | t => ([], t)
  if ip.length + fp.length == 0 then none
  else
    let mant : Q := ⟨(digitsToNat (ip ++ fp) : Int), 10 ^ fp.length⟩
    let mant := if sgnNeg then mant.neg else mant
    match cs with
    | [] => some mant
    | 'e' :: t | 'E' :: t =>
      let esgnNeg : Bool := match t with
        | '-' :: _ => true
        | _ => false
      let t := match t with
        | '+' :: r => r
        | '-' :: r => r
        | r => r
      let (ed, t) := t.span isDigitC
      if ed.length == 0 || !t.isEmpty then none
      else
        let ex : Int := if esgnNeg then -(digitsToNat ed : Int) else (digitsToNat ed : Int)
        some (mant.mul (pow10 ex))
    | _ => none

/-- `big.ParseFloat(s, 10, 0, big.ToNearestEven)`: exact decimal value
rounded to 64 mantissa bits.  `none` models a parse error. -/
def parseBig (s : String) : Option Q := (parseDecExact s).map round64

/-- `big.Float.Quo` of two 64-bit operands into a receiver of precision `0`:
the exact quotient rounded to 64 mantissa bits. -/
def quo64 (a b : Q) : Q := round64 (a.div b)

/-! ## JSON constants

`JSONVal` models the untyped `any` values that `encoding/json` produces for
the `Const` and `Enum` schema fields: `nil`, `bool`, `json.Number` (kept as
its lexical string), `string`, `[]any` and `map[string]any`. -/

inductive JSONVal where
  | null
  | bool (b : Bool)
  | num (s : String)
  | str (s : String)
  | arr (elems : List JSONVal)
  | obj (props : List (String × JSONVal))
  deriving Repr

/-- A compiled regular expression (`*regexp.Regexp`): its source text and its
match predicate.  The regex engine itself is outside the embedded source. -/
structure Pat where
  src : String
  test : String → Bool

/-- The fields of `schema.Schema` used by the validator, parameterised by the
type of sub-schemas so `Schema` below can tie the recursive knot.  Pointer
fields of the Go struct (`*Schema`, `*uint`) become `Option`; `PrefixItems`
(`[]*Schema`) becomes a list of options; the `map[string]` fields become
ordered association lists.  Numeric clause fields keep their `json.Number`
lexical strings; the compiled accessors (`GetMinimum` etc.) are modelled by
the `get*` definitions below. -/
structure SchemaShape (σ : Type) where
  stype : String
  always : Bool
  never : Bool
  constV : Option JSONVal
  enumV : List JSONVal
  multipleOf : Option String
  minimum : Option String
  exclusiveMinimum : Option String
  maximum : Option String
  exclusiveMaximum : Option String
  minLength : Option Nat
  maxLength : Option Nat
  pat : Option Pat
  minItems : Option Nat
  maxItems : Option Nat
  prefixItems : List (Option σ)
  items : Option σ
  minProperties : Option Nat
  maxProperties : Option Nat
  properties : List (String × Option σ)
  additionalProperties : Option σ
  required : List String
  dependentRequired : List (String × List String)

/-- A `schema.Schema` (already compiled; `Compile` lives in the external
`schema` package and is assumed to have succeeded, per the spec: schemas are
immutable after compile). -/
inductive Schema where
  | mk (shape : SchemaShape Schema) : Schema

/-- Access the fields of a schema. -/
def Schema.view : Schema → SchemaShape Schema
  | .mk v => v

@[simp]
theorem Schema.view_mk (v : SchemaShape Schema) : (Schema.mk v).view = v := rfl

/-- The empty schema: every constraint unset.  Used to build concrete
schemas field by field. -/
def emptyShape : SchemaShape Schema :=
  { stype := "", always := false, never := false, constV := none, enumV := [],
    multipleOf := none, minimum := none, exclusiveMinimum := none,
    maximum := none, exclusiveMaximum := none, minLength := none,
    maxLength := none, pat := none, minItems := none, maxItems := none,
    prefixItems := [], items := none, minProperties := none,
    maxProperties := none, properties := [], additionalProperties := none,
    required := [], dependentRequired := [] }

/-- `GetMultipleOf`: the compiled `*big.Float` of the `multipleOf` field
(`nil` when unset).  The schema package parses `json.Number` fields with the
same `big.ParseFloat(s, 10, 0, ToNearestEven)` call the validator uses. -/
def Schema.getMultipleOf (s : Schema) : Option Q := s.view.multipleOf.bind parseBig

/-- `GetMinimum` (see `Schema.getMultipleOf`). -/
def Schema.getMinimum (s : Schema) : Option Q := s.view.minimum.bind parseBig

/-- `GetExclusiveMinimum` (see `Schema.getMultipleOf`). -/
def Schema.getExclusiveMinimum (s : Schema) : Option Q :=
  s.view.exclusiveMinimum.bind parseBig

/-- `GetMaximum` (see `Schema.getMultipleOf`). -/
def Schema.getMaximum (s : Schema) : Option Q := s.view.maximum.bind parseBig

/-- `GetExclusiveMaximum` (see `Schema.getMultipleOf`). -/
def Schema.getExclusiveMaximum (s : Schema) : Option Q :=
  s.view.exclusiveMaximum.bind parseBig

/-- `isAny` returns true if a schema is the Always schema
(`s == nil || s.Always`). -/
def isAnyS : Option Schema → Bool
  | none => true
  | some A => A.view.always

/-- Whether a possibly-nil schema is the `Never` schema (a nil pointer is
not `Never`). -/
def schemaNever : Option Schema → Bool
  | none => false
  | some A => A.view.never

/-! ## Expressions and values

Only the structure of `expr` that validation observes is embedded: whether
the expression is a `listExpr` or `objectExpr` literal (with its children),
and the identity of its syntax node.  `sid` models `repr.syntax()` — the
source range a diagnostic is attached to. -/

inductive Expr where
  | listE (sid : Nat) (elements : List Expr)
  | objE (sid : Nat) (properties : List (String × Expr))
  | otherE (sid : Nat)
  deriving Repr

/-- The syntax node (source range identity) of an expression. -/
def Expr.sid : Expr → Nat
  | .listE i _ => i
  | .objE i _ => i
  | .otherE i => i

/-- Association-list lookup, modelling Go map indexing `m[k]`. -/
def lookupL {α : Type} : List (String × α) → String → Option α
  | [], _ => none
  | (k, v) :: rest, key => if k == key then some v else lookupL rest key

/-- A `value`: its representation (`repr`), defining expression (`def`),
declared schema, and `unknown` flag.  `secret` and `base` play no role in
validation and are omitted. -/
inductive Value where
  | vnull (defE : Expr) (schemaV : Option Schema) (unknown : Bool)
  | vbool (b : Bool) (defE : Expr) (schemaV : Option Schema) (unknown : Bool)
  | vnum (s : String) (defE : Expr) (schemaV : Option Schema) (unknown : Bool)
  | vstr (s : String) (defE : Expr) (schemaV : Option Schema) (unknown : Bool)
  | vlist (elems : List Value) (defE : Expr) (schemaV : Option Schema) (unknown : Bool)
  | vobj (props : List (String × Value)) (defE : Expr) (schemaV : Option Schema) (unknown : Bool)

/-- The defining expression of a value (`v.def`). -/
def Value.defE : Value → Expr
  | .vnull d _ _ => d
  | .vbool _ d _ _ => d
  | .vnum _ d _ _ => d
  | .vstr _ d _ _ => d
  | .vlist _ d _ _ => d
  | .vobj _ d _ _ => d

/-- The declared schema of a value (`v.schema`). -/
def Value.schemaV : Value → Option Schema
  | .vnull _ s _ => s
  | .vbool _ _ s _ => s
  | .vnum _ _ s _ => s
  | .vstr _ _ s _ => s
  | .vlist _ _ s _ => s
  | .vobj _ _ s _ => s

/-- The `unknown` flag of a value. -/
def Value.unknown : Value → Bool
  | .vnull _ _ u => u
  | .vbool _ _ _ u => u
  | .vnum _ _ _ u => u
  | .vstr _ _ _ u => u
  | .vlist _ _ _ u => u
  | .vobj _ _ _ u => u

/-- The ordered properties of an object value; `v.keys()` is
`(propsOf v).map Prod.fst` and `v.property(k)` is `lookupL (propsOf v) k`
(the spec: the mapping preserves insertion order for deterministic
iteration). -/
def Value.propsOf : Value → List (String × Value)
  | .vobj props _ _ _ => props
  | _ => []

/-! ## Blame locations and diagnostics -/

/-- A diagnostic issued through `evalContext.errorf`: the syntax node blamed
and the formatted message. -/
structure Diag where
  sid : Nat
  msg : String
  deriving Repr, DecidableEq

/-- `validationLoc` tracks the location to blame for a validation failure:
the expression defining the value, the relative path to the value, and
whether errors should carry the path as a prefix (Go field `prefix`). -/
structure VLoc where
  x : Expr
  path : String
  pfx : Bool
  deriving Repr

/-- Modelled from the spec: `joinKey` (defined in a repository file outside
`src/`) appends a property key to a path — “appends `[i]` or `.key` to the
path”. -/
def joinKey (root k : String) : String := root ++ "." ++ k

/-- `validationLoc.index`: if the location's expression is an array literal
and the index is in range, the returned location refers to the array element
at the given index (fresh path, no prefix); otherwise it refers to the
original expression with an appropriate path prefix. -/
def VLoc.index (l : VLoc) (i : Nat) : VLoc :=
  match l.x with
  | .listE _ elems =>
    if h : i < elems.length then
      ⟨elems.get ⟨i, h⟩, "[" ++ toString i ++ "]", false⟩
    else
      ⟨l.x, l.path ++ "[" ++ toString i ++ "]", true⟩
  | _ => ⟨l.x, l.path ++ "[" ++ toString i ++ "]", true⟩

/-- `validationLoc.property`: if the location's expression is an object
literal and the property exists, the returned location refers to that
property (fresh path, no prefix); otherwise it refers to the original
expression with an appropriate path prefix.  The object's base value is
intentionally not traversed. -/
def VLoc.property (l : VLoc) (k : String) : VLoc :=
  match l.x with
  | .objE _ props =>
    match lookupL props k with
    | some v => ⟨v, joinKey "" k, false⟩
    | none => ⟨l.x, joinKey l.path k, true⟩
  | _ => ⟨l.x, joinKey l.path k, true⟩

/-- `validationErrorf` issues a validation error at the given location and
returns false. -/
def validationErrorf (loc : VLoc) (msg : String) : Bool × List Diag :=
  let m := if loc.pfx then loc.path ++ ": " ++ msg else msg
  (false, [⟨loc.x.sid, m⟩])

/-- The successful result of a clause: true, no diagnostics. -/
def okR : Bool × List Diag := (true, [])

/-- Conjunction of two clause results, accumulating diagnostics in order
(`allOk = allOk && ok` with errors already emitted). -/
def andR (a b : Bool × List Diag) : Bool × List Diag := (a.1 && b.1, a.2 ++ b.2)

/-! ### JSON rendering of constants (`jsonRepr`) -/

/-- Escape a character for a JSON string literal (the stdlib additionally
escapes control and HTML characters, which the embedded constants do not
contain). -/
def escChar (c : Char) : String :=
  if c = '"' then "\\\"" else if c = '\\' then "\\\\" else String.singleton c

/-- Escape a string for a JSON string literal. -/
def escapeJSON (s : String) : String := String.join (s.data.map escChar)

/-- Insert into a key-sorted list of rendered properties. -/
def sortInsert (kv : String × String) : List (String × String) → List (String × String)
  | [] => [kv]
  | h :: t => if h.1 < kv.1 then h :: sortInsert kv t else kv :: h :: t

/-- Sort rendered properties by key, as `json.Marshal` does for maps. -/
def sortByKey (l : List (String × String)) : List (String × String) :=
  l.foldr sortInsert []

/-- `jsonRepr`: the JSON string representation of a constant
(`json.Marshal`). -/
def jsonRepr : JSONVal → String
  | .null => "null"
  | .bool true => "true"
  | .bool false => "false"
  | .num s => s
  | .str s => "\"" ++ escapeJSON s ++ "\""
  | .arr cs =>
    "[" ++ String.intercalate "," (cs.attach.map (fun c => jsonRepr c.1)) ++ "]"
  | .obj ps =>
    let rendered := ps.attach.map (fun p => (p.1.1, jsonRepr p.1.2))
    "\x7b" ++
      String.intercalate ","
        ((sortByKey rendered).map (fun kv => "\"" ++ escapeJSON kv.1 ++ "\":" ++ kv.2)) ++
      "\x7d"
decreasing_by
  · simp_wf
    have h := List.sizeOf_lt_of_mem c.2
    omega
  · simp_wf
    have h := List.sizeOf_lt_of_mem p.2
    obtain ⟨⟨k0, c0⟩, hm⟩ := p
    simp at h ⊢
    omega

/-- `constError`: an error for an invalid value where a constant is
expected. -/
def constError (loc : VLoc) (expected : JSONVal) : Bool × List Diag :=
  validationErrorf loc ("expected " ++ jsonRepr expected)

/-- `enumError`: an error for an invalid value where an enum is expected. -/
def enumError (loc : VLoc) (expected : List JSONVal) : Bool × List Diag :=
  match expected with
  | [c] => constError loc c
  | _ => validationErrorf loc ("expected one of " ++ jsonRepr (.arr expected))

/-- `typeError`: an error for an invalid type. -/
def typeError (loc : VLoc) (expected got : String) : Bool × List Diag :=
  validationErrorf loc ("expected " ++ expected ++ ", got " ++ got)

/-! ## Deep constant equality (`equalsConst`) -/

mutual

/-- `equalsConst` returns true if the JSON value of `v` is equal to `c`:
`nil`/`bool`/`string` by Go interface equality, `json.Number` by equality of
the lexical strings, arrays element-wise after a length check, objects
key-wise after a length check. -/
def equalsConst (v : Value) (c : JSONVal) : Bool :=
  match c with
  | .null =>
    match v with
    | .vnull _ _ _ => true
    | _ => false
  | .bool b =>
    match v with
    | .vbool b' _ _ _ => b' == b
    | _ => false
  | .num s =>
    match v with
    | .vnum s' _ _ _ => s' == s
    | _ => false
  | .str s =>
    match v with
    | .vstr s' _ _ _ => s' == s
    | _ => false
  | .arr cs =>
    match v with
    | .vlist a _ _ _ => a.length == cs.length && eqListC a cs
    | _ => false
  | .obj cs =>
    match v with
    | .vobj m _ _ _ => m.length == cs.length && eqObjC m cs
    | _ => false
termination_by sizeOf c

/-- Element-wise `equalsConst` over the members of an array constant (the
`for i, c := range c` loop; lengths are already known equal). -/
def eqListC : List Value → List JSONVal → Bool
  | [], [] => true
  | v :: vs, c :: cs => equalsConst v c && eqListC vs cs
  | _, _ => false
termination_by _ cs => sizeOf cs

/-- Key-wise `equalsConst` over the members of an object constant (the
`for k, c := range c` loop: each constant key must be present in the value's
map with an equal member). -/
def eqObjC (m : List (String × Value)) : List (String × JSONVal) → Bool
  | [] => true
  | (k, c) :: rest =>
    (match lookupL m k with
     | some w => equalsConst w c
     | none => false) && eqObjC m rest
termination_by cs => sizeOf cs

end

/-! ## Leaf validators -/

/-- `checkType` validates the `Type` field of `accept` against the given
actual type tag. -/
def checkType (actual : String) (accept : Schema) (loc : VLoc) : Bool × List Diag :=
  if actual != accept.view.stype then typeError loc accept.view.stype actual
  else okR

/-- The lexical text of a `json.Number` schema field, as `%v` formats it. -/
def numText (o : Option String) : String := o.getD ""

/-- `validateNumber` checks that `accept`'s number-specific clauses validate
`v`.  The comparison directions transcribe the source exactly:
`n.Cmp(m) > 0` (that is, `n > m`) fails the `minimum` clause,
`n.Cmp(m) >= 0` fails `exclusiveMinimum`, `n.Cmp(m) < 0` fails `maximum`,
and `n.Cmp(m) <= 0` fails `exclusiveMaximum`; the missing space in the
`maximum` message is also the source's. -/
def validateNumber (v : String) (accept : Schema) (loc : VLoc) : Bool × List Diag :=
  match parseBig v with
  | none => validationErrorf loc ("internal error: invalid number \"" ++ v ++ "\"")
  | some n =>
    let r1 :=
      match accept.getMultipleOf with
      | some m =>
        if !(quo64 n m).isInt then
          validationErrorf loc ("expected a multiple of " ++ numText accept.view.multipleOf)
        else okR
      | none => okR
    let r2 :=
      match accept.getMinimum with
      | some m =>
        if m.ltv n then
          validationErrorf loc
            ("expected a number greater than or equal to " ++ numText accept.view.minimum)
        else okR
      | none => okR
    let r3 :=
      match accept.getExclusiveMinimum with
      | some m =>
        if m.lev n then
          validationErrorf loc
            ("expected a number greater than " ++ numText accept.view.exclusiveMinimum)
        else okR
      | none => okR
    let r4 :=
      match accept.getMaximum with
      | some m =>
        if n.ltv m then
          validationErrorf loc
            ("expected a number less than or equal to" ++ numText accept.view.maximum)
        else okR
      | none => okR
    let r5 :=
      match accept.getExclusiveMaximum with
      | some m =>
        if n.lev m then
          validationErrorf loc
            ("expected a number less than " ++ numText accept.view.exclusiveMaximum)
        else okR
      | none => okR
    (r1.1 && r2.1 && r3.1 && r4.1 && r5.1, r1.2 ++ r2.2 ++ r3.2 ++ r4.2 ++ r5.2)

/-- `validateString` checks that `accept`'s string-specific clauses validate
`v` (`len(v)` is the byte length). -/
def validateString (v : String) (accept : Schema) (loc : VLoc) : Bool × List Diag :=
  let r1 :=
    match accept.view.minLength with
    | some m =>
      if v.utf8ByteSize < m then
        validationErrorf loc ("expected a string of at least length " ++ toString m)
      else okR
    | none => okR
  let r2 :=
    match accept.view.maxLength with
    | some m =>
      if m < v.utf8ByteSize then
        validationErrorf loc ("expected a string of at most length " ++ toString m)
      else okR
    | none => okR
  let r3 :=
    match accept.view.pat with
    | some p =>
      if !(p.test v) then
        validationErrorf loc ("string must match the pattern \"" ++ p.src ++ "\"")
      else okR
    | none => okR
  (r1.1 && r2.1 && r3.1, r1.2 ++ r2.2 ++ r3.2)

/-! ## Required-property checks (schema-versus-schema) -/

/-- The `checkRequired` closure of `validateSchemaObject`: every name in
`names` must be in `xreq` (the input's `Required` set); each missing name
yields a `missing required property` error at `loc.property(name)`. -/
def checkRequired (xreq : List String) (names : List String) (loc : VLoc) : Bool × List Diag :=
  match names with
  | [] => okR
  | name :: rest =>
    andR
      (if xreq.contains name then okR
       else validationErrorf (loc.property name) "missing required property")
      (checkRequired xreq rest loc)

/-- The `DependentRequired` loop of `validateSchemaObject`: for each entry
whose trigger is in `xreq`, its dependencies are checked with
`checkRequired`. -/
def vsoDeps (xreq : List String) (deps : List (String × List String)) (loc : VLoc) :
    Bool × List Diag :=
  match deps with
  | [] => okR
  | (name, req) :: rest =>
    andR (if xreq.contains name then checkRequired xreq req loc else okR)
      (vsoDeps xreq rest loc)

/-! ## Size lemmas for termination of the schema-versus-schema recursion -/

theorem sizeOf_lookupL {α : Type} [SizeOf α] :
    ∀ (l : List (String × α)) (k : String) (v : α),
      lookupL l k = some v → sizeOf v < sizeOf l := by
  intro l
  induction l with
  | nil => intro k v h; simp [lookupL] at h
  | cons hd tl ih =>
    intro k v h
    obtain ⟨k0, v0⟩ := hd
    simp only [lookupL] at h
    by_cases hk : (k0 == k) = true
    · simp [hk] at h
      subst h
      simp
      omega
    · simp [hk] at h
      have := ih k v h
      simp
      omega

theorem sizeOf_schema_arr (s : Schema) :
    sizeOf s.view.prefixItems + sizeOf s.view.items < sizeOf s := by
  cases s with
  | mk v => cases v; simp [Schema.view]; omega

theorem sizeOf_schema_obj (s : Schema) :
    sizeOf s.view.properties + sizeOf s.view.additionalProperties < sizeOf s := by
  cases s with
  | mk v => cases v; simp [Schema.view]; omega

/-! ## Schema-versus-schema validation -/

mutual

/-- `validateSchemaType` checks that `accept` validates `x`: `always` (or a
nil schema) accepts everything and is accepted by anything non-`never`;
`never` accepts nothing; otherwise the type tags must match exactly and the
array/object clauses recurse. -/
def validateSchemaType (x a : Option Schema) (loc : VLoc) : Bool × List Diag :=
  match a with
  | none => okR
  | some A =>
    if A.view.always then okR
    else if A.view.never then (false, [])
    else if isAnyS x then okR
    else
      match x with
      | none => okR
      | some X =>
        let ct := checkType X.view.stype A loc
        if !ct.1 then ct
        else if X.view.stype == "array" then validateSchemaArray X A loc
        else if X.view.stype == "object" then validateSchemaObject X A loc
        else okR
termination_by sizeOf x + sizeOf a

/-- `validateSchemaArray` checks that the array-typed schema `accept`
validates the array-typed schema `x`: common `PrefixItems` pairwise, surplus
`PrefixItems` on either side against the other side's `Items`, and finally
(unless `x.Items` is nil or `Never`) `accept.Items` against `x.Items`. -/
def validateSchemaArray (X A : Schema) (loc : VLoc) : Bool × List Diag :=
  let r1 := vsaLoop X.view.prefixItems A.view.prefixItems X.view.items A.view.items 0 loc
  let r2 :=
    match X.view.items with
    | some XI =>
      if !XI.view.never then validateSchemaType X.view.items A.view.items loc else okR
    | none => okR
  andR r1 r2
termination_by sizeOf X + sizeOf A
decreasing_by
  all_goals
    simp_wf
    have h1 := sizeOf_schema_arr X
    have h2 := sizeOf_schema_arr A
    omega

/-- The three prefix loops of `validateSchemaArray` fused into one recursion:
while both prefix lists are nonempty the heads are compared pairwise; a
surplus on the `x` side is compared against `accept.Items` (`aI`); a surplus
on the `accept` side is compared against `x.Items` (`xI`).  `i` is the
running element index used for blame. -/
def vsaLoop (xp ap : List (Option Schema)) (xI aI : Option Schema) (i : Nat) (loc : VLoc) :
    Bool × List Diag :=
  match xp, ap with
  | x0 :: xr, a0 :: ar =>
    andR (validateSchemaType x0 a0 (loc.index i)) (vsaLoop xr ar xI aI (i+1) loc)
  | x0 :: xr, [] =>
    andR (validateSchemaType x0 aI (loc.index i)) (vsaLoop xr [] xI aI (i+1) loc)
  | [], a0 :: ar =>
    andR (validateSchemaType xI a0 (loc.index i)) (vsaLoop [] ar xI aI (i+1) loc)
  | [], [] => okR
termination_by sizeOf xp + sizeOf ap + sizeOf xI + sizeOf aI

/-- `validateSchemaObject` checks that the object-typed schema `accept`
validates the object-typed schema `x`: each property of `x` against the
same-named property of `accept` or its `AdditionalProperties`; if `x` has no
`AdditionalProperties` (nil), `accept`'s `Required` and triggered
`DependentRequired` entries must be `Required` in `x`; if `x` has
`AdditionalProperties` other than `Never`, it is checked against `accept`'s
`AdditionalProperties`. -/
def validateSchemaObject (X A : Schema) (loc : VLoc) : Bool × List Diag :=
  let r1 := vsoProps X.view.properties A.view.properties A.view.additionalProperties loc
  let r2 :=
    match X.view.additionalProperties with
    | none =>
      andR (checkRequired X.view.required A.view.required loc)
        (vsoDeps X.view.required A.view.dependentRequired loc)
    | some xAdd =>
      if !xAdd.view.never then
        validateSchemaType X.view.additionalProperties A.view.additionalProperties loc
      else okR
  andR r1 r2
termination_by sizeOf X + sizeOf A
decreasing_by
  all_goals
    simp_wf
    have h1 := sizeOf_schema_obj X
    have h2 := sizeOf_schema_obj A
    omega

/-- The property loop of `validateSchemaObject`: each property of the input
against the same-named property of the target (`aprops`) or the target's
`AdditionalProperties` (`aAdd`). -/
def vsoProps (xprops aprops : List (String × Option Schema)) (aAdd : Option Schema)
    (loc : VLoc) : Bool × List Diag :=
  match xprops with
  | [] => okR
  | (name, px) :: rest =>
    let r :=
      match h : lookupL aprops name with
      | some pa => validateSchemaType px pa (loc.property name)
      | none => validateSchemaType px aAdd (loc.property name)
    andR r (vsoProps rest aprops aAdd loc)
termination_by sizeOf xprops + sizeOf aprops + sizeOf aAdd
decreasing_by
  all_goals simp_wf
  all_goals try have hs := sizeOf_lookupL aprops name pa h
  all_goals omega

end

/-! ## Value-versus-schema validation -/

/-- `validateConst` checks that `accept`'s `Const` validates the value (a
nil `Const` means the clause is unset and passes). -/
def validateConst (v : Value) (accept : Schema) (loc : VLoc) : Bool × List Diag :=
  match accept.view.constV with
  | none => okR
  | some c => if equalsConst v c then okR else constError loc c

/-- `validateEnum` checks that `accept`'s `Enum` validates the value: an
empty enum passes, otherwise some member must `equalsConst` the value. -/
def validateEnum (v : Value) (accept : Schema) (loc : VLoc) : Bool × List Diag :=
  if accept.view.enumV.isEmpty then okR
  else if accept.view.enumV.any (fun c => equalsConst v c) then okR
  else enumError loc accept.view.enumV

/-- The `missing` list built by `validateObject`: `Required` keys absent from
the value, then for each `DependentRequired` entry whose trigger key is
present, its absent dependencies. -/
def missingKeys (keys : List String) (A : Schema) : List String :=
  (A.view.required.filter (fun k => !keys.contains k)) ++
    ((A.view.dependentRequired.filter (fun p => keys.contains p.1)).map
      (fun p => p.2.filter (fun rk => !keys.contains rk))).join

theorem sizeOf_value_props (v : Value) : sizeOf v.propsOf < sizeOf v := by
  cases v <;> simp [Value.propsOf] <;> omega

mutual

/-- `validateValue` checks that `accept` validates `value`.  Note that the
passed blame location is discarded: validation restarts from the value's own
defining expression. -/
def validateValue (v : Value) (accept : Option Schema) (loc : VLoc) : Bool × List Diag :=
  validateElement v accept ⟨v.defE, "", false⟩
termination_by (sizeOf v, 4)

/-- `validateElement` checks that `accept` validates `value`: `always` (or
nil) passes, `never` fails, an unknown value falls back to schema-versus-
schema validation of its declared schema, and otherwise the `const`, `enum`
and type-specific clauses all run and accumulate. -/
def validateElement (v : Value) (accept : Option Schema) (loc : VLoc) : Bool × List Diag :=
  match accept with
  | none => okR
  | some A =>
    if A.view.always then okR
    else if A.view.never then (false, [])
    else if v.unknown then validateSchemaType v.schemaV accept loc
    else
      let c := validateConst v A loc
      let e := validateEnum v A loc
      let t := validateType v A loc
      (c.1 && e.1 && t.1, c.2 ++ e.2 ++ t.2)
termination_by (sizeOf v, 3)

/-- `validateType` dispatches on the value's representation tag, checks the
`Type` field, and runs the type-specific clauses. -/
def validateType (v : Value) (A : Schema) (loc : VLoc) : Bool × List Diag :=
  match v with
  | .vnull _ _ _ => checkType "null" A loc
  | .vbool _ _ _ _ => checkType "boolean" A loc
  | .vnum s _ _ _ =>
    let ct := checkType "number" A loc
    if ct.1 then validateNumber s A loc else ct
  | .vstr s _ _ _ =>
    let ct := checkType "string" A loc
    if ct.1 then validateString s A loc else ct
  | .vlist elems _ _ _ =>
    let ct := checkType "array" A loc
    if ct.1 then validateArray elems A loc else ct
  | .vobj props d sv u =>
    let ct := checkType "object" A loc
    if ct.1 then validateObject (.vobj props d sv u) A loc else ct
termination_by (sizeOf v, 2)

/-- `validateArray` checks the array-specific clauses: `MinItems`,
`MaxItems`, then every element against its `PrefixItems` position or the
tail `Items`. -/
def validateArray (elems : List Value) (A : Schema) (loc : VLoc) : Bool × List Diag :=
  let r1 :=
    match A.view.minItems with
    | some m =>
      if elems.length < m then
        validationErrorf loc ("expected an array with at least " ++ toString m ++ " items")
      else okR
    | none => okR
  let r2 :=
    match A.view.maxItems with
    | some m =>
      if m < elems.length then
        validationErrorf loc ("expected an array with at most " ++ toString m ++ " items")
      else okR
    | none => okR
  let r3 := vaItems elems 0 A loc
  (r1.1 && r2.1 && r3.1, r1.2 ++ r2.2 ++ r3.2)
termination_by (sizeOf elems, 1)

/-- The element loop of `validateArray` (`for i, v := range v`). -/
def vaItems (elems : List Value) (i : Nat) (A : Schema) (loc : VLoc) : Bool × List Diag :=
  match elems with
  | [] => okR
  | v :: rest =>
    let vloc := loc.index i
    let r :=
      match A.view.prefixItems.get? i with
      | some p => validateValue v p vloc
      | none => validateValue v A.view.items vloc
    andR r (vaItems rest (i+1) A loc)
termination_by (sizeOf elems, 0)

/-- `validateObject` checks the object-specific clauses: `MinProperties`,
`MaxProperties`, every property against `Properties` or
`AdditionalProperties`, then `Required` and `DependentRequired`, whose
missing keys are gathered into a single diagnostic. -/
def validateObject (v : Value) (A : Schema) (loc : VLoc) : Bool × List Diag :=
  let keys := v.propsOf.map Prod.fst
  let r1 :=
    match A.view.minProperties with
    | some m =>
      if keys.length < m then
        validationErrorf loc ("expected an object with at least " ++ toString m ++ " properties")
      else okR
    | none => okR
  let r2 :=
    match A.view.maxProperties with
    | some m =>
      if m < keys.length then
        validationErrorf loc ("expected an object with at most " ++ toString m ++ " properties")
      else okR
    | none => okR
  let r3 := voProps v.propsOf A loc
  let missing := missingKeys keys A
  let r4 :=
    if missing.isEmpty then okR
    else validationErrorf loc ("missing required properties: " ++ String.intercalate ", " missing)
  (r1.1 && r2.1 && r3.1 && r4.1, r1.2 ++ r2.2 ++ r3.2 ++ r4.2)
termination_by (sizeOf v, 1)
decreasing_by
  simp_wf
  have := sizeOf_value_props v
  omega

/-- The property loop of `validateObject` (`for _, k := range keys`, with
`kv := v.property(k)`). -/
def voProps (props : List (String × Value)) (A : Schema) (loc : VLoc) : Bool × List Diag :=
  match props with
  | [] => okR
  | (k, kv) :: rest =>
    let vloc := loc.property k
    let r :=
      match lookupL A.view.properties k with
      | some p => validateValue kv p vloc
      | none => validateValue kv A.view.additionalProperties vloc
    andR r (voProps rest A loc)
termination_by (sizeOf props, 0)

end

/-! ## Export of access chains (`expr.export`, `eval/expr.go`)

Only the `accessExpr` arm of `export` is embedded.  An `accessExpr` holds a
receiver `*value` whose `def` back-pointer is the receiver expression; the
embedding collapses `receiver.def` into a direct child.  `rng` models
`defRange` (the source range of the expression's syntax).  -/

/-- An `ast.PropertyAccessor`: a property name, or a subscript carrying a
string or an integer index. -/
inductive PropertyAccessor where
  | name (s : String)
  | subS (s : String)
  | subI (i : Int)

/-- An `environments.Accessor` of the exported form: `Key` or `Index`. -/
inductive Accessor where
  | key (k : String)
  | idx (i : Int)
  deriving DecidableEq, Repr

/-- `exportAccessor`: a `PropertyName` exports its name as `Key`; a
`PropertySubscript` exports a string index as `Key` and an int index as
`Index`. -/
def exportAccessor : PropertyAccessor → Accessor
  | .name s => .key s
  | .subS s => .key s
  | .subI i => .idx i

/-- An expression as seen by the access arm of `export`: either an
`accessExpr` (range, receiver expression, accessor) or any other expression
variant (`leaf`, with its range). -/
inductive AExpr where
  | leaf (rng : Nat)
  | access (rng : Nat) (receiver : AExpr) (accessor : PropertyAccessor)

/-- `defRange` of an expression. -/
def AExpr.rng : AExpr → Nat
  | .leaf r => r
  | .access r _ _ => r

/-- The exported `environments.AccessExpr`: the receiver's range and the
accessor list. -/
structure AccessExprE where
  receiver : Nat
  accessors : List Accessor
  deriving DecidableEq, Repr

/-- The fields of the exported `environments.Expr` that the access arm
populates: its range and its `Access` record (nil for other variants). -/
structure ExprE where
  rng : Nat
  accessRec : Option AccessExprE
  deriving DecidableEq, Repr

/-- The access arm of `expr.export`: for `accessExpr`, if the receiver is
itself an `accessExpr` the receiver's export is reused as the result and the
accessor is appended to its accessor list; otherwise a fresh single-accessor
`Access` record is created with the receiver's range. -/
def exportA : AExpr → ExprE
  | .leaf r => ⟨r, none⟩
  | .access r recv a =>
    let acc := exportAccessor a
    match recv with
    | .access _ _ _ =>
      let ex := exportA recv
      ⟨ex.rng, ex.accessRec.map (fun ar => ⟨ar.receiver, ar.accessors ++ [acc]⟩)⟩
    | _ => ⟨r, some ⟨recv.rng, [acc]⟩⟩

/-- Build a left-nested chain of access expressions over a base receiver:
the first list entry is the innermost access. -/
def mkChain : AExpr → List (Nat × PropertyAccessor) → AExpr
  | b, [] => b
  | b, (r, a) :: rest => mkChain (.access r b a) rest

/-! ## Concrete fixtures used by the theorems -/

/-- A blame location at a non-literal expression with an empty path. -/
def locEx : VLoc := ⟨.otherE 0, "", false⟩

/-- The `Never` schema. -/
def neverSchema : Schema := .mk { emptyShape with never := true }

/-- A number schema with only `minimum: 1`. -/
def sMin1 : Schema := .mk { emptyShape with stype := "number", minimum := some "1" }

/-- A number schema with only `exclusiveMinimum: 1`. -/
def sExMin1 : Schema := .mk { emptyShape with stype := "number", exclusiveMinimum := some "1" }

/-- A number schema with only `maximum: 10`. -/
def sMax10 : Schema := .mk { emptyShape with stype := "number", maximum := some "10" }

/-- A number schema with only `exclusiveMaximum: 10`. -/
def sExMax10 : Schema := .mk { emptyShape with stype := "number", exclusiveMaximum := some "10" }

/-- A number schema with only `multipleOf` set. -/
def mkMultSchema (m : String) : Schema :=
  .mk { emptyShape with stype := "number", multipleOf := some m }

/-- A number schema with all five numeric clauses set so that, given the
source's comparison directions, the value `5` violates every one of them. -/
def sAllNum : Schema :=
  .mk { emptyShape with
          stype := "number", multipleOf := some "2", minimum := some "1",
          exclusiveMinimum := some "1", maximum := some "10", exclusiveMaximum := some "10" }

/-- An array schema with no constraints beyond its type. -/
def arrAnySchema : Schema := .mk { emptyShape with stype := "array" }

/-- An array schema whose tail `items` is `Never`. -/
def arrNeverItems : Schema := .mk { emptyShape with stype := "array", items := some neverSchema }

/-- An object schema with no constraints beyond its type. -/
def objAnySchema : Schema := .mk { emptyShape with stype := "object" }

/-- An object schema whose `additionalProperties` is explicitly `Never`. -/
def objNeverAdd : Schema :=
  .mk { emptyShape with
          stype := "object", additionalProperties := some neverSchema }

/-- An object schema requiring `a`. -/
def objReqA : Schema := .mk { emptyShape with stype := "object", required := ["a"] }

/-- An object schema requiring `a` and, dependent on `b`, requiring `c`. -/
def sReqDep : Schema :=
  .mk { emptyShape with
          stype := "object", required := ["a"], dependentRequired := [("b", ["c"])] }

/-- A known object value with the single property `b: null`. -/
def vObjBC : Value :=
  .vobj [("b", .vnull (.otherE 1) none false)] (.otherE 0) none false

/-! # Theorems for the claims -/

set_option maxRecDepth 100000 in
/-- C1: the spec says the `minimum` clause passes iff `v >= minimum`,
`exclusiveMinimum` iff `v > exclusiveMinimum`, `maximum` iff `v <= maximum`,
and `exclusiveMaximum` iff `v < exclusiveMaximum`.  The code has every one
of the four comparisons inverted, contradicting its own error messages:
against `minimum: 1` the value `2` is rejected — with the message
`expected a number greater than or equal to 1`, even though `2 ≥ 1` — while
`0` is accepted; and analogously for the other three bounds.  This theorem
evaluates `validateNumber` at those failing inputs. -/
theorem c1_inverted_bounds :
    validateNumber "2" sMin1 locEx =
        (false, [⟨0, "expected a number greater than or equal to 1"⟩]) ∧
      (validateNumber "0" sMin1 locEx).1 = true ∧
      (validateNumber "2" sExMin1 locEx).1 = false ∧
      (validateNumber "0" sExMin1 locEx).1 = true ∧
      (validateNumber "9" sMax10 locEx).1 = false ∧
      (validateNumber "11" sMax10 locEx).1 = true ∧
      (validateNumber "9" sExMax10 locEx).1 = false ∧
      (validateNumber "11" sExMax10 locEx).1 = true := by
  decide

set_option maxRecDepth 100000 in
/-- C4 counterexample: the claim says the `multipleOf` clause accepts `v`
iff the exact rational quotient `v / multipleOf` is an integer.  The code
computes the quotient with 64-mantissa-bit binary floating point
(`big.ParseFloat(s, 10, 0, ToNearestEven)` followed by `big.Float.Quo`), so
`300000000000000000001` is accepted as a multiple of `3` even though its
exact quotient `100000000000000000000 + 1/3` is not an integer: the 69-bit
numerator is rounded to `300000000000000000000` during parsing. -/
theorem c4_counterexample :
    (validateNumber "300000000000000000001" (mkMultSchema "3") locEx).1 = true ∧
      ∃ a b : Q, parseDecExact "300000000000000000001" = some a ∧
        parseDecExact "3" = some b ∧ (a.div b).isInt = false := by
  refine ⟨by decide, ⟨300000000000000000001, 1⟩, ⟨3, 1⟩, by decide, by decide, by decide⟩

set_option maxRecDepth 100000 in
/-- C4 (amended): the `multipleOf` clause accepts `v` iff the quotient of
the parsed operands, computed in 64-mantissa-bit binary floating point with
round-to-nearest-even, is an integer.  For decimal inputs whose rounded
quotient is exact this agrees with the rational reading; in particular the
spec's example holds: `0.3` is a multiple of `0.1` (and `0.3` is not a
multiple of `0.2`). -/
theorem c4_amended :
    (∀ (v m : String) (n μ : Q) (loc : VLoc), parseBig v = some n → parseBig m = some μ →
        ((validateNumber v (mkMultSchema m) loc).1 = true ↔ (quo64 n μ).isInt = true)) ∧
      (validateNumber "0.3" (mkMultSchema "0.1") locEx).1 = true ∧
      (validateNumber "0.3" (mkMultSchema "0.2") locEx).1 = false := by
  refine ⟨?_, by decide, by decide⟩
  intro v m n μ loc hv hm
  simp only [validateNumber, hv, Schema.getMultipleOf, Schema.getMinimum,
    Schema.getExclusiveMinimum, Schema.getMaximum, Schema.getExclusiveMaximum,
    mkMultSchema, Schema.view, emptyShape, Option.bind, hm, okR]
  by_cases hq : (quo64 n μ).isInt
  · simp [hq]
  · simp [hq, validationErrorf]

/-- Whether an expression is a list literal (`listExpr`). -/
def isListLit : Expr → Bool
  | .listE _ _ => true
  | _ => false

/-- Whether an expression is an object literal (`objectExpr`). -/
def isObjLit : Expr → Bool
  | .objE _ _ => true
  | _ => false

/-- C3: during value-versus-schema validation, descending into an element or
property of a value defined by a literal list/object expression moves the
blame to the inner child expression with a fresh path (and no prefix), so an
error emitted there carries the child's own syntax node and an unprefixed
message; when the value is not defined by a literal, the blame stays on the
outer defining expression, the relative path accumulates `[i]` / `.key`,
and an error emitted there is prefixed with that path. -/
theorem c3_blame :
    (∀ (loc : VLoc) (i sid : Nat) (elems : List Expr) (c : Expr) (msg : String),
        loc.x = Expr.listE sid elems → elems.get? i = some c →
          loc.index i = ⟨c, "[" ++ toString i ++ "]", false⟩ ∧
            validationErrorf (loc.index i) msg = (false, [⟨c.sid, msg⟩])) ∧
      (∀ (loc : VLoc) (i : Nat) (msg : String), isListLit loc.x = false →
        loc.index i = ⟨loc.x, loc.path ++ "[" ++ toString i ++ "]", true⟩ ∧
          validationErrorf (loc.index i) msg =
            (false, [⟨loc.x.sid, loc.path ++ "[" ++ toString i ++ "]" ++ ": " ++ msg⟩])) ∧
      (∀ (loc : VLoc) (k : String) (sid : Nat) (props : List (String × Expr)) (c : Expr)
          (msg : String),
        loc.x = Expr.objE sid props → lookupL props k = some c →
          loc.property k = ⟨c, joinKey "" k, false⟩ ∧
            validationErrorf (loc.property k) msg = (false, [⟨c.sid, msg⟩])) ∧
      (∀ (loc : VLoc) (k : String) (msg : String), isObjLit loc.x = false →
        loc.property k = ⟨loc.x, joinKey loc.path k, true⟩ ∧
          validationErrorf (loc.property k) msg =
            (false, [⟨loc.x.sid, joinKey loc.path k ++ ": " ++ msg⟩])) := by
  refine ⟨?_, ?_, ?_, ?_⟩
  · intro loc i sid elems c msg hx hget
    rw [List.get?_eq_some] at hget
    obtain ⟨hlt, hg⟩ := hget
    obtain ⟨x, path, pfx⟩ := loc
    simp only at hx
    subst hx
    subst hg
    simp [VLoc.index, hlt, validationErrorf]
  · intro loc i msg hx
    obtain ⟨x, path, pfx⟩ := loc
    cases x with
    | listE s es => simp [isListLit] at hx
    | objE s ps => simp [VLoc.index, validationErrorf]
    | otherE s => simp [VLoc.index, validationErrorf]
  · intro loc k sid props c msg hx hget
    obtain ⟨x, path, pfx⟩ := loc
    simp only at hx
    subst hx
    simp [VLoc.property, hget, validationErrorf]
  · intro loc k msg hx
    obtain ⟨x, path, pfx⟩ := loc
    cases x with
    | listE s es => simp [VLoc.property, validationErrorf]
    | objE s ps => simp [isObjLit] at hx
    | otherE s => simp [VLoc.property, validationErrorf]

/-- C3 witness: the literal-list arm of the theorem at a list literal with
one child (syntax node 7), index 0. -/
theorem c3_blame_witness :
    VLoc.index ⟨.listE 5 [.otherE 7], "", false⟩ 0 = ⟨.otherE 7, "[" ++ toString 0 ++ "]", false⟩ ∧
      validationErrorf (VLoc.index ⟨.listE 5 [.otherE 7], "", false⟩ 0) "m" =
        (false, [⟨(Expr.otherE 7).sid, "m"⟩]) :=
  c3_blame.1 ⟨.listE 5 [.otherE 7], "", false⟩ 0 5 [.otherE 7] (.otherE 7) "m" rfl rfl

/-- Whether an `AExpr` is an `accessExpr`. -/
def isAccess : AExpr → Bool
  | .access _ _ _ => true
  | _ => false

theorem exportA_access_access (r rng : Nat) (recv : AExpr) (acc a : PropertyAccessor) :
    exportA (.access r (.access rng recv acc) a) =
      ⟨(exportA (.access rng recv acc)).rng,
        (exportA (.access rng recv acc)).accessRec.map
          (fun ar => ⟨ar.receiver, ar.accessors ++ [exportAccessor a]⟩)⟩ := rfl

theorem exportA_mkChain (l : List (Nat × PropertyAccessor)) :
    ∀ (rng : Nat) (recv : AExpr) (acc : PropertyAccessor),
      exportA (mkChain (.access rng recv acc) l) =
        ⟨(exportA (.access rng recv acc)).rng,
          (exportA (.access rng recv acc)).accessRec.map
            (fun ar => ⟨ar.receiver, ar.accessors ++ l.map (fun p => exportAccessor p.2)⟩)⟩ := by
  induction l with
  | nil =>
    intro rng recv acc
    show exportA (.access rng recv acc) = _
    rcases hE : exportA (.access rng recv acc) with ⟨rg, ac⟩
    cases ac <;> simp
  | cons hd rest ih =>
    intro rng recv acc
    obtain ⟨r, a⟩ := hd
    show exportA (mkChain (.access r (.access rng recv acc) a) rest) = _
    rw [ih, exportA_access_access]
    rcases hE : exportA (.access rng recv acc) with ⟨rg, ac⟩
    cases ac with
    | none => simp
    | some ar => simp [List.append_assoc]

/-- C9: exporting a chain of nested access expressions produces a single
`access` record whose receiver is the (range of the) innermost non-access
receiver and whose accessor list holds the chain's accessors in
left-to-right application order; the nested receivers contribute no nested
access records. -/
theorem c9_access_flatten (r0 r1 : Nat) (a1 : PropertyAccessor)
    (l : List (Nat × PropertyAccessor)) :
    exportA (mkChain (.leaf r0) ((r1, a1) :: l)) =
      ⟨r1, some ⟨r0, exportAccessor a1 :: l.map (fun p => exportAccessor p.2)⟩⟩ := by
  show exportA (mkChain (.access r1 (.leaf r0) a1) l) = _
  rw [exportA_mkChain]
  simp [exportA, AExpr.rng]

set_option maxRecDepth 100000 in
/-- C4 witness: the amended theorem applied at `v = "0.3"`, `m = "0.1"`,
whose parsed 64-bit values are `11068046444225730970 / 2^65` and
`14757395258967641293 / 2^67`. -/
theorem c4_amended_witness :
    (validateNumber "0.3" (mkMultSchema "0.1") locEx).1 = true ↔
      (quo64 ⟨11068046444225730970, 36893488147419103232⟩
          ⟨14757395258967641293, 147573952589676412928⟩).isInt = true :=
  c4_amended.1 "0.3" "0.1" _ _ locEx (by decide) (by decide)

/-- C6: validating a value whose `unknown` flag is set inspects no concrete
representation: against `always` it passes (with no diagnostics), against
`never` it fails (with no diagnostics), and otherwise it returns exactly the
schema-versus-schema validation of the value's declared schema against the
accepting schema (blamed at the value's defining expression).  Two unknown
values agreeing on declared schema and defining expression validate
identically, whatever their representations. -/
theorem c6_unknown_fallback :
    ∀ (v : Value) (A : Schema) (loc : VLoc), v.unknown = true →
      (validateValue v (some A) loc =
          (if A.view.always then okR
           else if A.view.never then ((false : Bool), ([] : List Diag))
           else validateSchemaType v.schemaV (some A) ⟨v.defE, "", false⟩)) ∧
        (∀ w : Value, w.unknown = true → w.schemaV = v.schemaV → w.defE = v.defE →
          validateValue w (some A) loc = validateValue v (some A) loc) := by
  intro v A loc hu
  constructor
  · rw [validateValue, validateElement, hu]
    simp
  · intro w hw hs hd
    rw [validateValue, validateElement, hw, validateValue, validateElement, hu, hs, hd]
    simp

/-- C6 witness: the theorem applied to an unknown value of declared schema
`number` against the `Never` schema. -/
theorem c6_unknown_fallback_witness :
    validateValue (.vnum "1" (.otherE 0) (some sMin1) true) (some neverSchema) locEx =
      (if neverSchema.view.always then okR
       else if neverSchema.view.never then ((false : Bool), ([] : List Diag))
       else validateSchemaType (Value.vnum "1" (.otherE 0) (some sMin1) true).schemaV
         (some neverSchema) ⟨(Value.vnum "1" (.otherE 0) (some sMin1) true).defE, "", false⟩) :=
  (c6_unknown_fallback (.vnum "1" (.otherE 0) (some sMin1) true) neverSchema locEx rfl).1

theorem validateValue_none (v : Value) (loc : VLoc) : validateValue v none loc = okR := by
  rw [validateValue, validateElement]

theorem vaItems_arrAny : ∀ (elems : List Value) (i : Nat) (loc : VLoc),
    vaItems elems i arrAnySchema loc = okR := by
  intro elems
  induction elems with
  | nil => intro i loc; rw [vaItems]
  | cons v rest ih =>
    intro i loc
    rw [vaItems]
    have hv : arrAnySchema.view = { emptyShape with stype := "array" } := rfl
    simp [hv, emptyShape, validateValue_none, ih, andR, okR]

theorem voProps_objAny : ∀ (props : List (String × Value)) (loc : VLoc),
    voProps props objAnySchema loc = okR := by
  intro props
  induction props with
  | nil => intro loc; rw [voProps]
  | cons hd rest ih =>
    intro loc
    obtain ⟨k, kv⟩ := hd
    rw [voProps]
    have hv : objAnySchema.view = { emptyShape with stype := "object" } := rfl
    simp [hv, emptyShape, lookupL, validateValue_none, ih, andR, okR]

/-- C10: a nil (absent) schema behaves as `always` throughout validation:
value validation against a nil accepting schema succeeds with no
diagnostics; a nil target schema in schema-versus-schema validation accepts
everything; a nil input schema is accepted by any non-`never` target; and
nil `items` / `additionalProperties` sub-schemas accept every element /
property in the recursive positions (shown for an array schema with nil
`items` and an object schema with nil `additionalProperties`, which accept
lists and objects of arbitrary known values). -/
theorem c10_nil_schema :
    (∀ (v : Value) (loc : VLoc), validateValue v none loc = okR) ∧
      (∀ (x : Option Schema) (loc : VLoc), validateSchemaType x none loc = okR) ∧
      (∀ (t : Option Schema) (loc : VLoc), schemaNever t = false →
        validateSchemaType none t loc = okR) ∧
      (∀ (elems : List Value) (d : Expr) (sv : Option Schema) (loc : VLoc),
        validateValue (.vlist elems d sv false) (some arrAnySchema) loc = okR) ∧
      (∀ (props : List (String × Value)) (d : Expr) (sv : Option Schema) (loc : VLoc),
        validateValue (.vobj props d sv false) (some objAnySchema) loc = okR) := by
  refine ⟨validateValue_none, ?_, ?_, ?_, ?_⟩
  · intro x loc
    rw [validateSchemaType]
  · intro t loc h
    cases t with
    | none => rw [validateSchemaType]
    | some A =>
      simp only [schemaNever] at h
      rw [validateSchemaType]
      by_cases hA : A.view.always <;> simp [hA, h, isAnyS]
  · intro elems d sv loc
    rw [validateValue, validateElement]
    have hv : arrAnySchema.view = { emptyShape with stype := "array" } := rfl
    simp [hv, emptyShape, Value.unknown, validateType, validateArray, validateConst,
      validateEnum, checkType, vaItems_arrAny, okR, andR]
  · intro props d sv loc
    rw [validateValue, validateElement]
    have hv : objAnySchema.view = { emptyShape with stype := "object" } := rfl
    simp [hv, emptyShape, Value.unknown, validateType, validateObject, validateConst,
      validateEnum, checkType, voProps_objAny, missingKeys, Value.propsOf, okR, andR]

/-- C10 witness: the non-`never` arm applied at the target `sMin1` (a
number schema, not `never`): a nil input schema is accepted. -/
theorem c10_nil_schema_witness :
    validateSchemaType none (some sMin1) locEx = okR :=
  c10_nil_schema.2.2.1 (some sMin1) locEx rfl

/-- The diagnostic `checkRequired` emits for a missing name at a blame
location. -/
def missingDiag (l : VLoc) : Diag :=
  ⟨l.x.sid,
    if l.pfx then l.path ++ ": " ++ "missing required property"
    else "missing required property"⟩

theorem checkRequired_eq (xreq : List String) :
    ∀ (names : List String) (loc : VLoc),
      checkRequired xreq names loc =
        (names.all (fun n => xreq.contains n),
          (names.filter (fun n => !xreq.contains n)).map (fun n => missingDiag (loc.property n))) := by
  intro names
  induction names with
  | nil => intro loc; rfl
  | cons n rest ih =>
    intro loc
    rw [checkRequired]
    by_cases hn : n ∈ xreq <;>
      simp [hn, andR, ih, validationErrorf, missingDiag, okR]

theorem vsoDeps_fst (xreq : List String) :
    ∀ (deps : List (String × List String)) (loc : VLoc),
      (vsoDeps xreq deps loc).1 =
        deps.all (fun p => !xreq.contains p.1 || p.2.all (fun n => xreq.contains n)) := by
  intro deps
  induction deps with
  | nil => intro loc; rfl
  | cons hd rest ih =>
    intro loc
    obtain ⟨name, req⟩ := hd
    rw [vsoDeps]
    by_cases hn : name ∈ xreq <;> simp [hn, andR, ih, checkRequired_eq, okR]

/-- C2 counterexample: the claim ties the required-subset check to an input
schema that constrains `additionalProperties` to `never`; in the code the
check instead runs when the input's `AdditionalProperties` is nil (absent).
With `additionalProperties` explicitly `Never` on the input, a target
requiring `a` succeeds although `a` is not required by the input. -/
theorem c2_counterexample :
    objNeverAdd.view.additionalProperties = some neverSchema ∧
      neverSchema.view.never = true ∧
      (validateSchemaObject objNeverAdd objReqA locEx).1 = true ∧
      "a" ∈ objReqA.view.required ∧ "a" ∉ objNeverAdd.view.required := by
  have hx : objNeverAdd.view =
      { emptyShape with stype := "object", additionalProperties := some neverSchema } := rfl
  have hra : objReqA.view.required = ["a"] := rfl
  have hrx : objNeverAdd.view.required = [] := rfl
  refine ⟨rfl, rfl, ?_, by rw [hra]; simp, by rw [hrx]; simp⟩
  rw [validateSchemaObject]
  simp [hx, emptyShape, vsoProps, andR, okR, neverSchema]

/-- C2 (amended): when the input schema's `additionalProperties` is absent
(nil), schema-versus-schema object validation succeeds only if every key in
the target's `required` list is also in the input's `required` list and
every `dependentRequired` entry of the target whose trigger key is required
in the input has all its dependent keys required in the input; each missing
key is reported by its own `missing required property` diagnostic, as the
`checkRequired` characterisation states. -/
theorem c2_amended :
    (∀ (X A : Schema) (loc : VLoc), X.view.additionalProperties = none →
        (validateSchemaObject X A loc).1 = true →
          ((∀ k ∈ A.view.required, k ∈ X.view.required) ∧
            (∀ p ∈ A.view.dependentRequired, p.1 ∈ X.view.required →
              ∀ d ∈ p.2, d ∈ X.view.required))) ∧
      (∀ (xreq names : List String) (loc : VLoc),
        checkRequired xreq names loc =
          (names.all (fun n => xreq.contains n),
            (names.filter (fun n => !xreq.contains n)).map
              (fun n => missingDiag (loc.property n)))) := by
  constructor
  · intro X A loc hAdd hOk
    rw [validateSchemaObject] at hOk
    rw [hAdd] at hOk
    simp only [andR, Bool.and_eq_true, checkRequired_eq, vsoDeps_fst] at hOk
    obtain ⟨-, hreq, hdep⟩ := hOk
    constructor
    · intro k hk
      have := List.all_eq_true.mp hreq k hk
      simpa using this
    · intro p hp htrig d hd
      have h2 := List.all_eq_true.mp hdep p hp
      rw [Bool.or_eq_true, Bool.not_eq_true'] at h2
      rcases h2 with h2 | h2
      · exfalso
        have : p.1 ∈ X.view.required := htrig
        simp [this] at h2
      · have := List.all_eq_true.mp h2 d hd
        simpa using this
  · exact fun xreq names loc => checkRequired_eq xreq names loc

/-- C2 witness: the amended theorem applied with both input and target
`objReqA` (whose `additionalProperties` is nil and whose `required` is
`["a"]`); the object check succeeds and the required-subset conclusions
follow. -/
theorem c2_amended_witness :
    (∀ k ∈ objReqA.view.required, k ∈ objReqA.view.required) ∧
      (∀ p ∈ objReqA.view.dependentRequired, p.1 ∈ objReqA.view.required →
        ∀ d ∈ p.2, d ∈ objReqA.view.required) := by
  refine (c2_amended.1 objReqA objReqA locEx rfl ?_)
  rw [validateSchemaObject]
  have hv : objReqA.view = { emptyShape with stype := "object", required := ["a"] } := rfl
  simp [hv, emptyShape, vsoProps, checkRequired, vsoDeps, andR, okR]

/-- Specification-side reading of the array schema-versus-schema check,
following the claim's wording (amended): the common `prefixItems` positions
are validated pairwise; surplus input positions are validated against the
target's `items`; surplus target positions are validated against the input's
`items`; finally, when the input's tail `items` is present and not `never`,
it is validated against the target's tail `items`; the result is the
conjunction of all these checks. -/
def specArrayChecks (X A : Schema) (loc : VLoc) : Bool :=
  let xp := X.view.prefixItems
  let ap := A.view.prefixItems
  let n := min xp.length ap.length
  let common := (List.range n).all
    (fun j => (validateSchemaType (xp.getD j none) (ap.getD j none) (loc.index j)).1)
  let surplusX := (List.range (xp.length - n)).all
    (fun j => (validateSchemaType (xp.getD (n + j) none) A.view.items (loc.index (n + j))).1)
  let surplusA := (List.range (ap.length - n)).all
    (fun j => (validateSchemaType X.view.items (ap.getD (n + j) none) (loc.index (n + j))).1)
  let tailOk :=
    match X.view.items with
    | some XI =>
      if !XI.view.never then (validateSchemaType X.view.items A.view.items loc).1 else true
    | none => true
  common && surplusX && surplusA && tailOk

theorem vsaLoopR_fst (xI aI : Option Schema) :
    ∀ (ap : List (Option Schema)) (i : Nat) (loc : VLoc),
      (vsaLoop [] ap xI aI i loc).1 =
        (List.range ap.length).all
          (fun j => (validateSchemaType xI (ap.getD j none) (loc.index (i + j))).1) := by
  intro ap
  induction ap with
  | nil => intro i loc; rw [vsaLoop]; simp [okR]
  | cons a0 ar ih =>
    intro i loc
    rw [vsaLoop]
    simp only [andR]
    rw [ih (i+1)]
    rw [List.length_cons, List.range_succ_eq_map, List.all_cons, List.all_map]
    simp only [Function.comp_def, List.getD_cons_succ, List.getD_cons_zero, Nat.add_zero]
    have h : ∀ j : Nat, i + 1 + j = i + (j + 1) := fun j => by omega
    simp only [h]

theorem vsaLoopL_fst (xI aI : Option Schema) :
    ∀ (xp : List (Option Schema)) (i : Nat) (loc : VLoc),
      (vsaLoop xp [] xI aI i loc).1 =
        (List.range xp.length).all
          (fun j => (validateSchemaType (xp.getD j none) aI (loc.index (i + j))).1) := by
  intro xp
  induction xp with
  | nil => intro i loc; rw [vsaLoop]; simp [okR]
  | cons x0 xr ih =>
    intro i loc
    rw [vsaLoop]
    simp only [andR]
    rw [ih (i+1)]
    rw [List.length_cons, List.range_succ_eq_map, List.all_cons, List.all_map]
    simp only [Function.comp_def, List.getD_cons_succ, List.getD_cons_zero, Nat.add_zero]
    have h : ∀ j : Nat, i + 1 + j = i + (j + 1) := fun j => by omega
    simp only [h]

theorem vsaLoop_fst (xI aI : Option Schema) :
    ∀ (xp ap : List (Option Schema)) (i : Nat) (loc : VLoc),
      (vsaLoop xp ap xI aI i loc).1 =
        ((List.range (min xp.length ap.length)).all
            (fun j => (validateSchemaType (xp.getD j none) (ap.getD j none) (loc.index (i + j))).1)
          && (List.range (xp.length - ap.length)).all
            (fun j => (validateSchemaType (xp.getD (ap.length + j) none) aI
                (loc.index (i + ap.length + j))).1)
          && (List.range (ap.length - xp.length)).all
            (fun j => (validateSchemaType xI (ap.getD (xp.length + j) none)
                (loc.index (i + xp.length + j))).1)) := by
  intro xp
  induction xp with
  | nil =>
    intro ap i loc
    rw [vsaLoopR_fst]
    simp [Nat.add_zero]
  | cons x0 xr ih =>
    intro ap i loc
    cases ap with
    | nil =>
      rw [vsaLoopL_fst]
      simp [Nat.add_zero]
    | cons a0 ar =>
      rw [vsaLoop]
      simp only [andR]
      rw [ih ar (i+1)]
      rw [List.length_cons, List.length_cons, Nat.succ_min_succ, Nat.succ_sub_succ,
        Nat.succ_sub_succ, List.range_succ_eq_map, List.all_cons, List.all_map]
      simp only [Function.comp_def, List.getD_cons_succ, List.getD_cons_zero, Nat.add_zero]
      have h1 : ∀ j : Nat, i + 1 + j = i + (j + 1) := fun j => by omega
      have h2 : ∀ j : Nat, ar.length + 1 + j = (ar.length + j) + 1 := fun j => by omega
      have h3 : ∀ j : Nat, i + 1 + ar.length + j = i + (ar.length + 1) + j := fun j => by omega
      have h4 : ∀ j : Nat, xr.length + 1 + j = (xr.length + j) + 1 := fun j => by omega
      have h5 : ∀ j : Nat, i + 1 + xr.length + j = i + (xr.length + 1) + j := fun j => by omega
      simp only [h2, h4, List.getD_cons_succ, h1, h3, h5, Bool.and_assoc]

/-- C5 (amended): the array schema-versus-schema check equals the claim's
conjunction — pairwise common `prefixItems`, surplus positions on either
side against the other side's `items`, and the input's tail `items` against
the target's tail `items` — except that the final tail comparison is only
performed when the input's `items` is present and not `never` (a nil or
`never` input `items` skips it). -/
theorem c5_amended (X A : Schema) (loc : VLoc) :
    (validateSchemaArray X A loc).1 = specArrayChecks X A loc := by
  rw [validateSchemaArray]
  simp only [andR, specArrayChecks]
  rw [vsaLoop_fst]
  have hxs : X.view.prefixItems.length - A.view.prefixItems.length =
      X.view.prefixItems.length - min X.view.prefixItems.length A.view.prefixItems.length := by
    omega
  have has : A.view.prefixItems.length - X.view.prefixItems.length =
      A.view.prefixItems.length - min X.view.prefixItems.length A.view.prefixItems.length := by
    omega
  rcases Nat.le_total X.view.prefixItems.length A.view.prefixItems.length with h | h
  · have h1 : min X.view.prefixItems.length A.view.prefixItems.length =
        X.view.prefixItems.length := Nat.min_eq_left h
    have h0 : X.view.prefixItems.length - A.view.prefixItems.length = 0 := by omega
    rw [← hxs, ← has, h0]
    simp only [List.range_zero, List.all_nil, Bool.true_and, Bool.and_true, Nat.zero_add,
      h1, Bool.and_assoc]
    cases hXI : X.view.items with
    | none => simp [okR]
    | some XI => by_cases hnev : XI.view.never <;> simp [hnev, okR]
  · have h1 : min X.view.prefixItems.length A.view.prefixItems.length =
        A.view.prefixItems.length := Nat.min_eq_right h
    have h0 : A.view.prefixItems.length - X.view.prefixItems.length = 0 := by omega
    rw [← hxs, ← has, h0]
    simp only [List.range_zero, List.all_nil, Bool.true_and, Bool.and_true, Nat.zero_add,
      h1, Bool.and_assoc]
    cases hXI : X.view.items with
    | none => simp [okR]
    | some XI => by_cases hnev : XI.view.never <;> simp [hnev, okR]

/-- C5 counterexample: the claim as stated includes the tail comparison of
the input's `items` (absent, i.e. defaulting to `always`) against the
target's `items` unconditionally; the code skips it when the input's
`items` is nil.  An array schema with no `items` is accepted by an array
schema whose `items` is `never`, although validating `always` against
`never` fails. -/
theorem c5_counterexample :
    (validateSchemaType (some arrAnySchema) (some arrNeverItems) locEx).1 = true ∧
      (validateSchemaType arrAnySchema.view.items arrNeverItems.view.items locEx).1 = false := by
  constructor
  · rw [validateSchemaType]
    have hx : arrAnySchema.view = { emptyShape with stype := "array" } := rfl
    have ha : arrNeverItems.view =
        { emptyShape with stype := "array", items := some neverSchema } := rfl
    rw [validateSchemaArray]
    simp [hx, ha, emptyShape, isAnyS, checkType, okR, andR, vsaLoop]
  · have hx : arrAnySchema.view.items = none := rfl
    have ha : arrNeverItems.view.items = some neverSchema := rfl
    rw [hx, ha, validateSchemaType]
    simp [neverSchema, emptyShape]

theorem lookupL_mem {α : Type} :
    ∀ (m : List (String × α)) (k : String) (v : α),
      lookupL m k = some v → k ∈ m.map Prod.fst := by
  intro m
  induction m with
  | nil => intro k v h; simp [lookupL] at h
  | cons hd tl ih =>
    intro k v h
    obtain ⟨k0, v0⟩ := hd
    simp only [lookupL] at h
    by_cases hk : (k0 == k) = true
    · simp only [List.map_cons, List.mem_cons]
      exact Or.inl (eq_of_beq hk).symm
    · simp [hk] at h
      simp only [List.map_cons, List.mem_cons]
      exact Or.inr (ih k v h)

theorem eqListC_iff :
    ∀ (a : List Value) (cs : List JSONVal),
      eqListC a cs = true ↔ List.Forall₂ (fun w c => equalsConst w c = true) a cs := by
  intro a
  induction a with
  | nil =>
    intro cs
    cases cs with
    | nil => simp [eqListC]
    | cons c cs => rw [eqListC] <;> simp
  | cons v vs ih =>
    intro cs
    cases cs with
    | nil => rw [eqListC] <;> simp
    | cons c cs => rw [eqListC] <;> simp [ih, List.forall₂_cons]

theorem eqObjC_iff (m : List (String × Value)) :
    ∀ cs : List (String × JSONVal),
      eqObjC m cs = true ↔
        ∀ p ∈ cs, ∃ w, lookupL m p.1 = some w ∧ equalsConst w p.2 = true := by
  intro cs
  induction cs with
  | nil => rw [eqObjC]; simp
  | cons hd rest ih =>
    obtain ⟨k, c⟩ := hd
    rw [eqObjC]
    cases hl : lookupL m k with
    | none => simp [hl]
    | some w => simp [hl, ih, and_comm]

theorem enumError_fst (loc : VLoc) : ∀ es : List JSONVal, (enumError loc es).1 = false := by
  intro es
  cases es with
  | nil => rfl
  | cons c rest => cases rest <;> rfl

set_option maxRecDepth 8000 in
/-- C7: for a known value and a schema with `const` set, the const clause
passes iff the value deep-equals the constant, and the `enum` clause passes
iff the enum is unset or some member deep-equals the value; deep equality
compares null/boolean/string by equality, numbers by lexical equality of
their JSON-number strings, arrays element-wise (with equal lengths, as
`Forall₂` enforces), and objects key-wise with equal key sets (equal
lengths plus every constant key present; for duplicate-free key lists this
makes the key multisets a permutation of each other). -/
theorem c7_deep_equal :
    (∀ (v : Value) (A : Schema) (loc : VLoc) (c : JSONVal), A.view.constV = some c →
        ((validateConst v A loc).1 = true ↔ equalsConst v c = true)) ∧
      (∀ (v : Value) (A : Schema) (loc : VLoc),
        ((validateEnum v A loc).1 = true ↔
          (A.view.enumV = [] ∨ ∃ c ∈ A.view.enumV, equalsConst v c = true))) ∧
      (∀ v : Value, equalsConst v .null = true ↔ ∃ d s u, v = .vnull d s u) ∧
      (∀ (v : Value) (b : Bool),
        equalsConst v (.bool b) = true ↔ ∃ d s u, v = .vbool b d s u) ∧
      (∀ (v : Value) (t : String),
        equalsConst v (.num t) = true ↔ ∃ d s u, v = .vnum t d s u) ∧
      (∀ (v : Value) (t : String),
        equalsConst v (.str t) = true ↔ ∃ d s u, v = .vstr t d s u) ∧
      (∀ (v : Value) (cs : List JSONVal),
        equalsConst v (.arr cs) = true ↔
          ∃ elems d s u, v = .vlist elems d s u ∧
            List.Forall₂ (fun w c => equalsConst w c = true) elems cs) ∧
      (∀ (v : Value) (cs : List (String × JSONVal)),
        equalsConst v (.obj cs) = true ↔
          ∃ m d s u, v = .vobj m d s u ∧ m.length = cs.length ∧
            ∀ p ∈ cs, ∃ w, lookupL m p.1 = some w ∧ equalsConst w p.2 = true) ∧
      (∀ (m : List (String × Value)) (d : Expr) (s : Option Schema) (u : Bool)
          (cs : List (String × JSONVal)),
        (m.map Prod.fst).Nodup → (cs.map Prod.fst).Nodup →
          equalsConst (.vobj m d s u) (.obj cs) = true →
          (m.map Prod.fst).Perm (cs.map Prod.fst)) := by
  refine ⟨?_, ?_, ?_, ?_, ?_, ?_, ?_, ?_, ?_⟩
  · intro v A loc c hc
    rw [validateConst, hc]
    by_cases h : equalsConst v c = true <;> simp [h, constError, validationErrorf, okR]
  · intro v A loc
    rw [validateEnum]
    by_cases he : A.view.enumV.isEmpty
    · simp [he, List.isEmpty_iff.mp he, okR]
    · by_cases ha : A.view.enumV.any (fun c => equalsConst v c)
      · simp only [he, ha, if_true, if_false, Bool.false_eq_true, okR]
        simp
        right
        simpa [List.any_eq_true] using ha
      · simp only [he, ha, if_false, Bool.false_eq_true, enumError_fst]
        constructor
        · intro h; simp at h
        · intro h
          rcases h with h | h
          · simp [h, List.isEmpty_iff] at he
          · exfalso; apply ha; simpa [List.any_eq_true] using h
  · intro v; cases v <;> simp [equalsConst]
  · intro v b; cases v <;> simp [equalsConst]
  · intro v t; cases v <;> simp [equalsConst]
  · intro v t; cases v <;> simp [equalsConst]
  · intro v cs
    cases v with
    | vlist a d s u =>
      rw [equalsConst]
      simp only [Bool.and_eq_true, beq_iff_eq, eqListC_iff]
      constructor
      · rintro ⟨hlen, hf⟩
        exact ⟨a, d, s, u, rfl, hf⟩
      · rintro ⟨elems, d', s', u', heq, hf⟩
        cases heq
        exact ⟨hf.length_eq, hf⟩
    | vnull d s u => simp [equalsConst]
    | vbool b d s u => simp [equalsConst]
    | vnum t d s u => simp [equalsConst]
    | vstr t d s u => simp [equalsConst]
    | vobj m d s u => simp [equalsConst]
  · intro v cs
    cases v with
    | vobj m d s u =>
      rw [equalsConst]
      simp only [Bool.and_eq_true, beq_iff_eq, eqObjC_iff]
      constructor
      · rintro ⟨hlen, hf⟩
        exact ⟨m, d, s, u, rfl, hlen, hf⟩
      · rintro ⟨m', d', s', u', heq, hlen, hf⟩
        cases heq
        exact ⟨hlen, hf⟩
    | vnull d s u => simp [equalsConst]
    | vbool b d s u => simp [equalsConst]
    | vnum t d s u => simp [equalsConst]
    | vstr t d s u => simp [equalsConst]
    | vlist a d s u => simp [equalsConst]
  · intro m d s u cs hm hcs heq
    rw [equalsConst] at heq
    simp only [Bool.and_eq_true, beq_iff_eq, eqObjC_iff] at heq
    obtain ⟨hlen, hf⟩ := heq
    have hsubset : (cs.map Prod.fst) ⊆ (m.map Prod.fst) := by
      intro k hk
      rw [List.mem_map] at hk
      obtain ⟨p, hp, hpk⟩ := hk
      obtain ⟨w, hw, -⟩ := hf p hp
      subst hpk
      exact lookupL_mem m p.1 w hw
    have hsp : List.Subperm (cs.map Prod.fst) (m.map Prod.fst) := hcs.subperm hsubset
    have hperm : (cs.map Prod.fst).Perm (m.map Prod.fst) :=
      hsp.perm_of_length_le (by simp [hlen])
    exact hperm.symm

/-- C7 witness: the const arm of the theorem applied at a concrete number
value and a schema whose `const` is the JSON number `1.0` (lexically equal,
so the clause passes). -/
theorem c7_deep_equal_witness :
    (validateConst (.vnum "1.0" (.otherE 0) none false)
        (.mk { emptyShape with constV := some (.num "1.0") }) locEx).1 = true ↔
      equalsConst (.vnum "1.0" (.otherE 0) none false) (.num "1.0") = true :=
  c7_deep_equal.1 (.vnum "1.0" (.otherE 0) none false)
    (.mk { emptyShape with constV := some (.num "1.0") }) locEx (.num "1.0") rfl

set_option maxRecDepth 100000 in
/-- C8 counterexample: the claim says the `required` and `dependentRequired`
clauses each emit their own diagnostic.  At the object `{b: null}` against a
schema requiring `a` with `dependentRequired {b: [c]}`, both clauses are
violated (`a` is missing; `b` is present and `c` is missing — `missingKeys`
collects `[a, c]`), yet the whole validation emits exactly one diagnostic:
the two clauses are merged into a single `missing required properties`
message. -/
theorem c8_counterexample :
    "a" ∈ sReqDep.view.required ∧
      ("b", ["c"]) ∈ sReqDep.view.dependentRequired ∧
      vObjBC.propsOf.map Prod.fst = ["b"] ∧
      missingKeys ["b"] sReqDep = ["a", "c"] ∧
      (validateValue vObjBC (some sReqDep) locEx).1 = false ∧
      (validateValue vObjBC (some sReqDep) locEx).2.length = 1 := by
  have hv : sReqDep.view =
      { emptyShape with
          stype := "object", required := ["a"], dependentRequired := [("b", ["c"])] } := rfl
  have heval : validateValue vObjBC (some sReqDep) locEx =
      (false, [⟨0, "missing required properties: a, c"⟩]) := by
    rw [validateValue, validateElement]
    simp only [hv, emptyShape, Value.unknown, Bool.false_eq_true, if_false]
    simp only [vObjBC]
    rw [validateType]
    rw [validateObject]
    simp only [Value.propsOf]
    rw [voProps, voProps]
    simp [validateConst, validateEnum, checkType, hv, emptyShape, missingKeys,
      Value.propsOf, Value.defE, lookupL, validateValue_none, andR, okR,
      validationErrorf, Expr.sid]
    try rfl
  refine ⟨?_, ?_, rfl, by decide, ?_, ?_⟩
  · rw [hv]; simp
  · rw [hv]; simp
  · simp [heval]
  · simp [heval]

set_option maxRecDepth 100000 in
/-- C8 (amended): a single value-versus-schema validation does not stop at
the first violation: for a known value against a schema that is neither
`always` nor `never`, the `const`, `enum` and type-specific clauses all run
and their diagnostics accumulate in order; within the numeric clauses the
value `5` violates all five (under the source's comparison directions) and
produces five separate diagnostics; for objects, the missing keys of
`required` and `dependentRequired` are gathered and reported in a single
`missing required properties` diagnostic. -/
theorem c8_amended :
    (∀ (v : Value) (A : Schema) (loc : VLoc),
        A.view.always = false → A.view.never = false → v.unknown = false →
          validateValue v (some A) loc =
            ((validateConst v A ⟨v.defE, "", false⟩).1 &&
                (validateEnum v A ⟨v.defE, "", false⟩).1 &&
                (validateType v A ⟨v.defE, "", false⟩).1,
              (validateConst v A ⟨v.defE, "", false⟩).2 ++
                (validateEnum v A ⟨v.defE, "", false⟩).2 ++
                (validateType v A ⟨v.defE, "", false⟩).2)) ∧
      (validateNumber "5" sAllNum locEx).2.length = 5 ∧
      (validateValue vObjBC (some sReqDep) locEx).2.length = 1 := by
  refine ⟨?_, by decide, ?_⟩
  · intro v A loc hA hN hu
    rw [validateValue, validateElement]
    simp [hA, hN, hu, Bool.and_assoc]
  · have hv : sReqDep.view =
        { emptyShape with
            stype := "object", required := ["a"], dependentRequired := [("b", ["c"])] } := rfl
    rw [validateValue, validateElement]
    simp only [hv, emptyShape, Value.unknown, Bool.false_eq_true, if_false]
    simp only [vObjBC]
    rw [validateType]
    rw [validateObject]
    simp only [Value.propsOf]
    rw [voProps, voProps]
    simp [validateConst, validateEnum, checkType, hv, emptyShape, missingKeys,
      Value.propsOf, Value.defE, lookupL, validateValue_none, andR, okR,
      validationErrorf, Expr.sid]
    try rfl

set_option maxRecDepth 100000 in
/-- C8 witness: the no-short-circuit equation applied at the number `5`
against the all-clauses schema `sAllNum`. -/
theorem c8_amended_witness :
    validateValue (.vnum "5" (.otherE 0) none false) (some sAllNum) locEx =
      ((validateConst (.vnum "5" (.otherE 0) none false) sAllNum ⟨.otherE 0, "", false⟩).1 &&
          (validateEnum (.vnum "5" (.otherE 0) none false) sAllNum ⟨.otherE 0, "", false⟩).1 &&
          (validateType (.vnum "5" (.otherE 0) none false) sAllNum ⟨.otherE 0, "", false⟩).1,
        (validateConst (.vnum "5" (.otherE 0) none false) sAllNum ⟨.otherE 0, "", false⟩).2 ++
          (validateEnum (.vnum "5" (.otherE 0) none false) sAllNum ⟨.otherE 0, "", false⟩).2 ++
          (validateType (.vnum "5" (.otherE 0) none false) sAllNum ⟨.otherE 0, "", false⟩).2) :=
  c8_amended.1 (.vnum "5" (.otherE 0) none false) sAllNum locEx rfl rfl rfl

end Esc
